import Mathlib

/-!
# Product dashboard: the in-memory data-view engine of `script.js`

A shallow embedding of the state and of the functions of `script.js` that
compute the filtered, sorted and paginated view and its CSV export, followed
by theorems about them.

Modelling conventions.

* A JavaScript string is the list of its UTF-16 code units (`JSString`).
  `String.prototype.toLowerCase` and the number-to-string conversion of
  template literals are language primitives; the definitions take them as the
  parameters `toLowerCase` and `numToString`.
* JavaScript numbers are modelled by rationals (`price`) and integers (`id`,
  page numbers, page size); only their order and equality are used.
* The global variables of the script are the fields of `State`; a function that
  mutates globals is a function `State → State`. DOM rendering has no effect on
  these variables and is left out.
* `Array.prototype.sort` is stable (ECMAScript 2019), so with a consistent
  comparator its result is the stable sorted arrangement of the array; it is
  computed here by insertion (`List.insertionSort`), placing an element in
  front of the first element it does not compare greater than.
-/

namespace ProductDashboard

/-! ## Strings -/

/-- A JavaScript string, as the sequence of its UTF-16 code units. -/
abbrev JSString := List Nat

/-- The code units of a string literal of the source (all of them ASCII). -/
def lit (s : String) : JSString := s.toList.map Char.toNat

/-- The method `s.startsWith(p)`. -/
def startsWith : JSString → JSString → Bool
  | _, [] => true
  | [], _ :: _ => false
  | c :: s, d :: p => decide (c = d) && startsWith s p

/-- The method `s.endsWith(p)`. -/
def endsWith (s p : JSString) : Bool := startsWith s.reverse p.reverse

/-- The method `s.includes(q)`: `q` starts at some position of `s`. -/
def includes : JSString → JSString → Bool
  | [], q => startsWith [] q
  | c :: s, q => startsWith (c :: s) q || includes s q

/-- Clamp an integer index into `[0, len]`. -/
def clampIndex (len : Nat) (i : Int) : Nat := min (max i 0).toNat len

/-- The method `s.substring(a, b)`: both indices are clamped into `[0, s.length]` and
swapped when the first exceeds the second. -/
def substring (s : JSString) (a b : Int) : JSString :=
  let a1 := clampIndex s.length a
  let b1 := clampIndex s.length b
  let from1 := min a1 b1
  let to1 := max a1 b1
  (s.drop from1).take (to1 - from1)

/-- The call `s.replace(/"/g, '""')`: every double quote (code unit 34) becomes two. -/
def replaceQuotes : JSString → JSString
  | [] => []
  | c :: s => if c = 34 then 34 :: 34 :: replaceQuotes s else c :: replaceQuotes s

/-- The method `rows.join(sep)`. -/
def join (sep : JSString) : List JSString → JSString
  | [] => []
  | r :: rows => rows.foldl (fun acc x => acc ++ sep ++ x) r

/-- The relational `<` of JavaScript on two strings: lexicographic order of
the code units. -/
def strLt : JSString → JSString → Bool
  | [], [] => false
  | [], _ :: _ => true
  | _ :: _, [] => false
  | a :: as, b :: bs =>
    if a < b then true else if b < a then false else strLt as bs

/-- Lower-casing of the ASCII letters, the behaviour of `toLowerCase` on ASCII
text; used to evaluate the functions on concrete inputs. -/
def asciiLower (s : JSString) : JSString :=
  s.map (fun c => if 65 ≤ c ∧ c ≤ 90 then c + 32 else c)

/-- Decimal rendering of an integral number, the behaviour of the
number-to-string conversion on the integers; used on concrete inputs. -/
def decimalString (q : ℚ) : JSString :=
  (if q.num < 0 then [45] else []) ++ (Nat.toDigits 10 q.num.natAbs).map Char.toNat

/-! ## Data model -/

/-- The optional `category` object of a product. -/
structure Category where
  id : Int
  name : JSString
deriving DecidableEq

/-- A product record as delivered by the API. `category` and `images` may be
absent. -/
structure Product where
  id : Int
  title : JSString
  price : ℚ
  description : JSString
  category : Option Category
  images : Option (List JSString)
deriving DecidableEq

/-- The field names `sortData` is used with. -/
inductive SortKey where
  | title
  | price
  | id
deriving DecidableEq

/-- The two values of `sortConfig.direction`, `'asc'` and `'desc'`. -/
inductive Direction where
  | asc
  | desc
deriving DecidableEq

/-- The global `sortConfig`; `key = none` is the initial `null`. -/
structure SortConfig where
  key : Option SortKey
  direction : Direction
deriving DecidableEq

/-- The global variables of the script. -/
structure State where
  allProducts : List Product
  filteredProducts : List Product
  currentPage : Int
  itemsPerPage : Int
  sortConfig : SortConfig
deriving DecidableEq

/-- The state after `fetchProducts` has loaded the collection `c`. -/
def initialState (c : List Product) : State :=
  { allProducts := c
    filteredProducts := c
    currentPage := 1
    itemsPerPage := 10
    sortConfig := { key := none, direction := Direction.asc } }

/-! ## Pagination -/

/-- The method `arr.slice(start, stop)`: a negative index counts from the end, both are
clamped into `[0, arr.length]`. -/
def slice {α : Type} (arr : List α) (start stop : Int) : List α :=
  let len : Int := arr.length
  let k := if start < 0 then max (len + start) 0 else min start len
  let fin := if stop < 0 then max (len + stop) 0 else min stop len
  (arr.drop k.toNat).take (fin - k).toNat

/-- The `pageData` of `renderTable`. -/
def pageData (filteredProducts : List Product) (currentPage itemsPerPage : Int) :
    List Product :=
  let startIndex := (currentPage - 1) * itemsPerPage
  let endIndex := startIndex + itemsPerPage
  slice filteredProducts startIndex endIndex

/-- The value `Math.ceil(filteredProducts.length / itemsPerPage)`, for a non-zero
`itemsPerPage` (the quotient is the exact one). -/
def totalPages (length : Nat) (itemsPerPage : Int) : Int :=
  ⌈(length : ℚ) / (itemsPerPage : ℚ)⌉

/-- The values taken by `i` in `for (let i = startPage; i <= endPage; i++)`. -/
def pageLoop (i endPage : Int) : List Int :=
  if i ≤ endPage then i :: pageLoop (i + 1) endPage else []
termination_by (endPage + 1 - i).toNat
decreasing_by omega

/-- The `startPage` of `renderPagination`, after the re-clamp. -/
def startPage (currentPage totalPages : Int) : Int :=
  let startPage := max 1 (currentPage - 2)
  let endPage := min totalPages (startPage + 4)
  if endPage - startPage < 4 then max 1 (endPage - 4) else startPage

/-- The `endPage` of `renderPagination`. -/
def endPage (currentPage totalPages : Int) : Int :=
  let startPage := max 1 (currentPage - 2)
  min totalPages (startPage + 4)

/-- The page numbers offered by `renderPagination`, in order. -/
def navWindow (currentPage totalPages : Int) : List Int :=
  pageLoop (startPage currentPage totalPages) (endPage currentPage totalPages)

/-- The function `handlePageChange(page)`. -/
def handlePageChange (s : State) (page : Int) : State :=
  if page < 1 ∨ page > totalPages s.filteredProducts.length s.itemsPerPage then s
  else { s with currentPage := page }

/-- The `change` listener of the page-size select; `value` is the number
`parseInt(e.target.value)`. -/
def changeItemsPerPage (s : State) (value : Int) : State :=
  { s with itemsPerPage := value, currentPage := 1 }

/-- The test `pageData.length === 0` of `renderTable`, on which the row
"No products found" is rendered in place of the table rows. -/
def rendersNoProducts (s : State) : Bool :=
  decide ((pageData s.filteredProducts s.currentPage s.itemsPerPage).length = 0)

/-! ## Sorting and searching -/

/-- The body of the comparator of `sortData` once `valA` and `valB` are
computed; `lt` is the `<` of their type. -/
def compareVals {α : Type} (lt : α → α → Bool) (direction : Direction) (valA valB : α) : Int :=
  if lt valA valB then (if direction = Direction.asc then -1 else 1)
  else if lt valB valA then (if direction = Direction.asc then 1 else -1)
  else 0

/-- The comparator passed to `sort` by `sortData(key, direction)`: text values
are lower-cased, numbers are compared as they are. -/
def compareFn (toLowerCase : JSString → JSString) (key : SortKey) (direction : Direction)
    (a b : Product) : Int :=
  match key with
  | SortKey.title => compareVals strLt direction (toLowerCase a.title) (toLowerCase b.title)
  | SortKey.price => compareVals (fun x y : ℚ => decide (x < y)) direction a.price b.price
  | SortKey.id => compareVals (fun x y : Int => decide (x < y)) direction a.id b.id

/-- The call `arr.sort(cmp)` for a comparator `cmp`: the stable sort. -/
def sortBy (cmp : Product → Product → Int) (arr : List Product) : List Product :=
  arr.insertionSort (fun a b => cmp a b ≤ 0)

/-- The function `sortData(key, direction)`. -/
def sortData (toLowerCase : JSString → JSString) (s : State) (key : SortKey)
    (direction : Direction) : State :=
  { s with filteredProducts := sortBy (compareFn toLowerCase key direction) s.filteredProducts }

/-- The function `handleSearch(query)`. -/
def handleSearch (toLowerCase : JSString → JSString) (s : State) (query : JSString) : State :=
  let lowerQuery := toLowerCase query
  let s1 := { s with
    filteredProducts := s.allProducts.filter (fun p => includes (toLowerCase p.title) lowerQuery)
    currentPage := 1 }
  match s1.sortConfig.key with
  | some key => sortData toLowerCase s1 key s1.sortConfig.direction
  | none => s1

/-- The function `handleSort(key)`; `updateSortIcons` only writes to the icon
elements of the page, which are taken to exist for the key. -/
def handleSort (toLowerCase : JSString → JSString) (s : State) (key : SortKey) : State :=
  let sortConfig : SortConfig :=
    if s.sortConfig.key = some key then
      { s.sortConfig with
        direction := if s.sortConfig.direction = Direction.asc then Direction.desc
                     else Direction.asc }
    else { key := some key, direction := Direction.asc }
  sortData toLowerCase { s with sortConfig := sortConfig } key sortConfig.direction

/-! ## Image normalisation -/

/-- The computation of `imgUrl` shared by `renderTable`, `openDetailModal` and
`openEditModal`; `fallback` is the value `imgUrl` is initialised with. -/
def normalizeImage (fallback : JSString) (product : Product) : JSString :=
  match product.images with
  | some (rawUrl :: _) =>
    if startsWith rawUrl (lit "[\"") && endsWith rawUrl (lit "\"]") then
      substring rawUrl 2 ((rawUrl.length : Int) - 2)
    else rawUrl
  | _ => fallback

/-- The `imgUrl` of a table row (`renderTable`). -/
def tableImgUrl (product : Product) : JSString :=
  normalizeImage (lit "https://via.placeholder.com/50") product

/-- The `imgUrl` of the detail modal (`openDetailModal`). -/
def detailImgUrl (product : Product) : JSString :=
  normalizeImage (lit "https://via.placeholder.com/300") product

/-! ## CSV export -/

/-- What `exportCSV` does: raise the alert, or offer the text for download. -/
inductive ExportResult where
  | alert (message : JSString)
  | download (csvContent : JSString)
deriving DecidableEq

/-- The `title` constant of the `forEach` of `exportCSV`. -/
def csvTitle (item : Product) : JSString :=
  lit "\"" ++ replaceQuotes item.title ++ lit "\""

/-- The `desc` constant of the `forEach` of `exportCSV`. -/
def csvDesc (item : Product) : JSString :=
  lit "\"" ++ replaceQuotes item.description ++ lit "\""

/-- The `catName` constant of the `forEach` of `exportCSV`. -/
def csvCatName (item : Product) : JSString :=
  match item.category with
  | some category => lit "\"" ++ category.name ++ lit "\""
  | none => lit "\"\""

/-- The `img` variable of the `forEach` of `exportCSV`. -/
def csvImg (item : Product) : JSString :=
  match item.images with
  | some (first :: _) => first
  | _ => lit ""

/-- The row pushed for one `item` by the `forEach` of `exportCSV`. -/
def csvRow (numToString : ℚ → JSString) (item : Product) : JSString :=
  numToString item.id ++ lit "," ++ csvTitle item ++ lit "," ++ numToString item.price
    ++ lit "," ++ csvDesc item ++ lit "," ++ csvCatName item ++ lit "," ++ csvImg item

/-- The function `exportCSV()`, up to the creation of the download link. -/
def exportCSV (numToString : ℚ → JSString) (s : State) : ExportResult :=
  if s.filteredProducts.length = 0 then ExportResult.alert (lit "No data to export")
  else
    let fields := [lit "id", lit "title", lit "price", lit "description", lit "category_name",
      lit "image_url"]
    let csvRows := [join (lit ",") fields]
    let csvRows := s.filteredProducts.foldl (fun rows item => rows ++ [csvRow numToString item])
      csvRows
    ExportResult.download (join (lit "\n") csvRows)

/-! ## Notions used to state the properties -/

/-- The order `x ≤ y` for two strings under the order of `strLt`. -/
def strLe (x y : JSString) : Prop := strLt x y = true ∨ x = y

/-- The record `a` may stand before the record `b` in a view sorted by `key`
in `direction`: `key(a) ≤ key(b)` ascending, `key(a) ≥ key(b)` descending, text
keys being compared lower-cased. -/
def inOrder (toLowerCase : JSString → JSString) (key : SortKey) (direction : Direction)
    (a b : Product) : Prop :=
  match key, direction with
  | SortKey.title, Direction.asc => strLe (toLowerCase a.title) (toLowerCase b.title)
  | SortKey.title, Direction.desc => strLe (toLowerCase b.title) (toLowerCase a.title)
  | SortKey.price, Direction.asc => a.price ≤ b.price
  | SortKey.price, Direction.desc => b.price ≤ a.price
  | SortKey.id, Direction.asc => a.id ≤ b.id
  | SortKey.id, Direction.desc => b.id ≤ a.id

/-- The records `a` and `b` have equal keys under the comparison rule of
`sortData`. -/
def sameKey (toLowerCase : JSString → JSString) (key : SortKey) (a b : Product) : Bool :=
  match key with
  | SortKey.title => decide (toLowerCase a.title = toLowerCase b.title)
  | SortKey.price => decide (a.price = b.price)
  | SortKey.id => decide (a.id = b.id)

/-- One quoted CSV text field: the value between two double quotes, each double
quote of the value written twice. -/
def quotedField (value : JSString) : JSString :=
  [34] ++ value.flatMap (fun c => if c = 34 then [34, 34] else [c]) ++ [34]

/-- The name of the category of a record, empty when the record has no
category. -/
def categoryName (item : Product) : JSString :=
  (item.category.map (fun category => category.name)).getD []

/-- The first entry of `images` as it is, empty when there is none. -/
def rawImage (item : Product) : JSString :=
  ((item.images.getD []).head?).getD []

/-- The view derived from the collection and the latest query alone; `none`
stands for "no query entered yet". -/
def derivedView (toLowerCase : JSString → JSString) (collection : List Product) :
    Option JSString → List Product
  | none => collection
  | some query =>
    collection.filter (fun p => includes (toLowerCase p.title) (toLowerCase query))

/-- The derived view reordered by the sort state: stably sorted by its key and
direction, or left as it is when no key is set. -/
def rederivedView (toLowerCase : JSString → JSString) (collection : List Product)
    (query : Option JSString) (sortConfig : SortConfig) : List Product :=
  match sortConfig.key with
  | some key =>
    sortBy (compareFn toLowerCase key sortConfig.direction)
      (derivedView toLowerCase collection query)
  | none => derivedView toLowerCase collection query

/-- The states reached from the initial load of `collection` by calls of
`handleSearch`, `handleSort` (keys `title` and `price`) and `handlePageChange`,
each with the latest query passed to `handleSearch` so far. -/
inductive Reachable (toLowerCase : JSString → JSString) (collection : List Product) :
    Option JSString → State → Prop where
  | load : Reachable toLowerCase collection none (initialState collection)
  | search {latest : Option JSString} {s : State} (query : JSString) :
      Reachable toLowerCase collection latest s →
      Reachable toLowerCase collection (some query) (handleSearch toLowerCase s query)
  | sort {latest : Option JSString} {s : State} (key : SortKey) :
      Reachable toLowerCase collection latest s →
      key = SortKey.title ∨ key = SortKey.price →
      Reachable toLowerCase collection latest (handleSort toLowerCase s key)
  | page {latest : Option JSString} {s : State} (page : Int) :
      Reachable toLowerCase collection latest s →
      Reachable toLowerCase collection latest (handlePageChange s page)

/-- The other direction. -/
def opposite : Direction → Direction
  | Direction.asc => Direction.desc
  | Direction.desc => Direction.asc

/-- The states reached from the initial load of `collection` by calls of
`handleSearch`, `handleSort`, `handlePageChange` and changes of the page size
to a positive value. -/
inductive ReachablePaged (toLowerCase : JSString → JSString) (collection : List Product) :
    State → Prop where
  | load : ReachablePaged toLowerCase collection (initialState collection)
  | search {s : State} (query : JSString) :
      ReachablePaged toLowerCase collection s →
      ReachablePaged toLowerCase collection (handleSearch toLowerCase s query)
  | sort {s : State} (key : SortKey) :
      ReachablePaged toLowerCase collection s →
      ReachablePaged toLowerCase collection (handleSort toLowerCase s key)
  | page {s : State} (page : Int) :
      ReachablePaged toLowerCase collection s →
      ReachablePaged toLowerCase collection (handlePageChange s page)
  | size {s : State} (value : Int) :
      ReachablePaged toLowerCase collection s →
      0 < value →
      ReachablePaged toLowerCase collection (changeItemsPerPage s value)

/-! ## Sample data -/

/-- A product with the given id, title and price and nothing else. -/
def sample (id : Int) (title : String) (price : ℚ) : Product :=
  { id := id, title := lit title, price := price, description := [], category := none,
    images := none }

/-- Three products titled "Red Shirt", "Pants" and "SHIRT XL". -/
def shirtProducts : List Product :=
  [sample 1 "Red Shirt" 10, sample 2 "Pants" 20, sample 3 "SHIRT XL" 30]

/-- Twelve products with the ids 1 to 12 and ascending prices. -/
def twelveProducts : List Product :=
  (List.range 12).map (fun i => sample ((i : Int) + 1) "item" ((i : ℚ) + 1))

/-- Two products of equal price whose titles are in descending order. -/
def tieProducts : List Product :=
  [sample 1 "b" 5, sample 2 "a" 5]

/-- A product with a first image entry and, possibly, a category name. -/
def withImage (entry : String) (categoryName : Option String) : Product :=
  { id := 7, title := lit "He said \"hi\"", price := 3, description := lit "d",
    category := categoryName.map (fun n => { id := 1, name := lit n }),
    images := some [lit entry] }

/-- A view of two records: one with a quote in its title, a description, the
category "Shoes" and an image entry, and one with a title only. -/
def exportProducts : List Product :=
  [withImage "http://x/y.png" (some "Shoes"), sample 2 "a" 5]

end ProductDashboard

/-! # Theorems -/

namespace ProductDashboard

/-! ## Strings -/

theorem startsWith_iff (s p : JSString) : startsWith s p = true ↔ p <+: s := by
  induction s generalizing p with
  | nil => cases p <;> simp [startsWith]
  | cons c s ih =>
    cases p with
    | nil => simp [startsWith]
    | cons d p =>
      simp only [startsWith, Bool.and_eq_true, decide_eq_true_eq, ih, List.cons_prefix_cons]
      constructor
      · rintro ⟨rfl, h⟩; exact ⟨rfl, h⟩
      · rintro ⟨rfl, h⟩; exact ⟨rfl, h⟩

theorem includes_iff (s q : JSString) : includes s q = true ↔ q <:+: s := by
  induction s with
  | nil => simp [includes, startsWith_iff]
  | cons c s ih =>
    simp only [includes, Bool.or_eq_true, startsWith_iff, ih, List.infix_cons_iff]

/-! ## Filtering -/

/-- C1. With no sort key set, the view after `handleSearch(q)` is the collection
filtered by "the lower-cased title contains the lower-cased query as a
substring": a sublist of the collection, and the whole collection for the empty
query. -/
theorem handleSearch_view_without_sort (toLowerCase : JSString → JSString) (s : State)
    (q : JSString) (hkey : s.sortConfig.key = none) (hlow : toLowerCase [] = []) :
    (handleSearch toLowerCase s q).filteredProducts
        = s.allProducts.filter (fun p => decide (toLowerCase q <:+: toLowerCase p.title))
      ∧ (handleSearch toLowerCase s q).filteredProducts.Sublist s.allProducts
      ∧ (handleSearch toLowerCase s []).filteredProducts = s.allProducts := by
  have hview : ∀ q', (handleSearch toLowerCase s q').filteredProducts
      = s.allProducts.filter (fun p => decide (toLowerCase q' <:+: toLowerCase p.title)) := by
    intro q'
    simp only [handleSearch, hkey]
    apply List.filter_congr
    intro p _
    by_cases h : toLowerCase q' <:+: toLowerCase p.title
    · simp [h, (includes_iff _ _).2 h]
    · have : includes (toLowerCase p.title) (toLowerCase q') = false := by
        rw [← Bool.not_eq_true, includes_iff]; exact h
      simp [h, this]
  refine ⟨hview q, ?_, ?_⟩
  · rw [hview q]; exact List.filter_sublist _
  · rw [hview [], hlow]
    simp

/-- The scenario of C1: the query "shirt" keeps "Red Shirt" and "SHIRT XL", in
that order. -/
theorem handleSearch_view_without_sort_witness :
    (initialState shirtProducts).sortConfig.key = none
      ∧ asciiLower [] = []
      ∧ (handleSearch asciiLower (initialState shirtProducts) (lit "shirt")).filteredProducts
          = [sample 1 "Red Shirt" 10, sample 3 "SHIRT XL" 30]
      ∧ ((handleSearch asciiLower (initialState shirtProducts) (lit "shirt")).filteredProducts
          = shirtProducts.filter
              (fun p => decide (asciiLower (lit "shirt") <:+: asciiLower p.title))
        ∧ (handleSearch asciiLower (initialState shirtProducts)
            (lit "shirt")).filteredProducts.Sublist (initialState shirtProducts).allProducts
        ∧ (handleSearch asciiLower (initialState shirtProducts) []).filteredProducts
            = (initialState shirtProducts).allProducts) :=
  ⟨rfl, rfl, by decide,
    handleSearch_view_without_sort asciiLower (initialState shirtProducts) (lit "shirt") rfl rfl⟩

/-! ## Pagination -/

theorem totalPages_bounds (length : Nat) (itemsPerPage : Int) (h : 0 < itemsPerPage) :
    (totalPages length itemsPerPage - 1) * itemsPerPage < length
      ∧ (length : Int) ≤ totalPages length itemsPerPage * itemsPerPage := by
  have hq : (0 : ℚ) < (itemsPerPage : ℚ) := by exact_mod_cast h
  have h1 := Int.ceil_lt_add_one ((length : ℚ) / (itemsPerPage : ℚ))
  have h2 := Int.le_ceil ((length : ℚ) / (itemsPerPage : ℚ))
  unfold totalPages
  constructor
  · have : ((⌈(length : ℚ) / (itemsPerPage : ℚ)⌉ : ℚ) - 1) * itemsPerPage < length := by
      rw [← lt_div_iff₀ hq]; linarith
    exact_mod_cast this
  · have : (length : ℚ) ≤ (⌈(length : ℚ) / (itemsPerPage : ℚ)⌉ : ℚ) * itemsPerPage := by
      rw [← div_le_iff₀ hq]; exact h2
    exact_mod_cast this

theorem totalPages_nonneg (length : Nat) (itemsPerPage : Int) (h : 0 < itemsPerPage) :
    0 ≤ totalPages length itemsPerPage := by
  have hb := (totalPages_bounds length itemsPerPage h).2
  by_contra hneg
  have : totalPages length itemsPerPage * itemsPerPage < 0 :=
    Int.mul_neg_of_neg_of_pos (by omega) h
  omega

theorem slice_of_nat {α : Type} (arr : List α) (a b : Nat) :
    slice arr (a : Int) (b : Int) = (arr.drop a).take (b - a) := by
  unfold slice
  have ha : ¬ ((a : Int) < 0) := by omega
  have hb : ¬ ((b : Int) < 0) := by omega
  simp only [ha, hb, if_false]
  by_cases hlen : a ≤ arr.length
  · have h1 : (min (a : Int) (arr.length : Int)).toNat = a := by omega
    have h2 : (min (b : Int) (arr.length : Int) - min (a : Int) (arr.length : Int)).toNat
        = min (b - a) (arr.length - a) := by omega
    rw [h1, h2, List.take_eq_take]
    simp
  · have h1 : (min (a : Int) (arr.length : Int)).toNat = arr.length := by omega
    rw [h1, List.drop_length, List.drop_eq_nil_of_le (by omega)]
    simp

theorem pageData_succ (view : List Product) (i k : Nat) :
    pageData view ((i : Int) + 1) (k : Int) = (view.drop (i * k)).take k := by
  unfold pageData
  have h1 : ((i : Int) + 1 - 1) * (k : Int) = ((i * k : Nat) : Int) := by push_cast; ring
  have h2 : ((i * k : Nat) : Int) + (k : Int) = ((i * k + k : Nat) : Int) := by
    push_cast; ring
  simp only [h1]
  rw [h2, slice_of_nat, Nat.add_sub_cancel_left]

theorem flatMap_pages (view : List Product) (k n : Nat) :
    (List.range n).flatMap (fun i => (view.drop (i * k)).take k) = view.take (n * k) := by
  induction n with
  | zero => simp
  | succ n ih =>
    rw [List.range_succ, List.flatMap_append, ih]
    simp only [List.flatMap_cons, List.flatMap_nil, List.append_nil]
    rw [Nat.succ_mul, List.take_add]

theorem slice_length_le {α : Type} (arr : List α) (start len : Int) (h : 0 ≤ len) :
    ((slice arr start (start + len)).length : Int) ≤ len := by
  unfold slice
  simp only [List.length_take, List.length_drop]
  split <;> split <;> omega

/-- C2. For a positive page size, the page slices of the pages
`1..totalPages`, concatenated in order, are the view, and no slice (of any page)
is longer than the page size. -/
theorem pages_reconstruct_view (view : List Product) (pageSize : Int) (hsize : 0 < pageSize) :
    (List.range (totalPages view.length pageSize).toNat).flatMap
        (fun i => pageData view ((i : Int) + 1) pageSize) = view
      ∧ ∀ page : Int, ((pageData view page pageSize).length : Int) ≤ pageSize := by
  constructor
  · obtain ⟨k, rfl⟩ : ∃ k : Nat, pageSize = (k : Int) := ⟨pageSize.toNat, by omega⟩
    have hb := (totalPages_bounds view.length (k : Int) hsize).2
    have hn := totalPages_nonneg view.length (k : Int) hsize
    obtain ⟨n, hn'⟩ : ∃ n : Nat, totalPages view.length (k : Int) = (n : Int) :=
      ⟨(totalPages view.length (k : Int)).toNat, by omega⟩
    rw [hn'] at hb
    simp only [hn', Int.toNat_ofNat, pageData_succ]
    rw [flatMap_pages]
    apply List.take_of_length_le
    have : ((view.length : Nat) : Int) ≤ ((n * k : Nat) : Int) := by push_cast; exact hb
    exact_mod_cast this
  · intro page
    exact slice_length_le view _ pageSize (le_of_lt hsize)

theorem totalPages_twelve_five : totalPages 12 5 = 3 := by
  unfold totalPages
  rw [Int.ceil_eq_iff]
  norm_num

/-- The scenario of C2: twelve records and page size 5 give three pages, the
first with the ids 1 to 5 and the third with the ids 11 and 12. -/
theorem pages_reconstruct_view_witness :
    (0 : Int) < 5
      ∧ totalPages twelveProducts.length 5 = 3
      ∧ (pageData twelveProducts 1 5).map (fun p => p.id) = [1, 2, 3, 4, 5]
      ∧ (pageData twelveProducts 3 5).map (fun p => p.id) = [11, 12]
      ∧ ((List.range (totalPages twelveProducts.length 5).toNat).flatMap
            (fun i => pageData twelveProducts ((i : Int) + 1) 5) = twelveProducts
          ∧ ∀ page : Int, ((pageData twelveProducts page 5).length : Int) ≤ 5) :=
  ⟨by decide, totalPages_twelve_five, by decide, by decide,
    pages_reconstruct_view twelveProducts 5 (by decide)⟩

theorem pageLoop_eq (i endPage : Int) :
    pageLoop i endPage
      = (List.range (endPage + 1 - i).toNat).map (fun k : Nat => i + (k : Int)) := by
  generalize hn : (endPage + 1 - i).toNat = n
  induction n generalizing i with
  | zero =>
    rw [pageLoop, if_neg (by omega)]
    rfl
  | succ n ih =>
    rw [pageLoop, if_pos (by omega), ih (i + 1) (by omega), List.range_succ_eq_map]
    simp only [List.map_cons, List.map_map, Nat.cast_zero, add_zero, List.cons.injEq, true_and]
    apply List.map_congr_left
    intro k _
    simp only [Function.comp_apply, Nat.cast_succ]
    ring

theorem length_pageLoop (i endPage : Int) :
    (pageLoop i endPage).length = (endPage + 1 - i).toNat := by
  simp [pageLoop_eq]

theorem mem_pageLoop (i endPage j : Int) : j ∈ pageLoop i endPage ↔ i ≤ j ∧ j ≤ endPage := by
  rw [pageLoop_eq]
  simp only [List.mem_map, List.mem_range]
  constructor
  · rintro ⟨k, hk, rfl⟩; omega
  · rintro ⟨h1, h2⟩
    exact ⟨(j - i).toNat, by omega, by omega⟩

theorem chain_pageLoop (i endPage : Int) :
    List.Chain' (fun a b : Int => b = a + 1) (pageLoop i endPage) := by
  generalize hn : (endPage + 1 - i).toNat = n
  induction n generalizing i with
  | zero =>
    rw [pageLoop, if_neg (by omega)]
    exact List.chain'_nil
  | succ n ih =>
    rw [pageLoop, if_pos (by omega)]
    have hrec := ih (i + 1) (by omega)
    rw [List.chain'_cons']
    refine ⟨?_, hrec⟩
    intro y hy
    rw [pageLoop] at hy
    split at hy
    · simp only [List.head?_cons, Option.mem_def, Option.some.injEq] at hy
      exact hy.symm
    · simp at hy

/-- C3. For every `totalPages ≥ 0` and every `currentPage`, in particular every
positive one, the navigation window of `renderPagination` is a run of
consecutive integers, all within `[1, totalPages]`, of length
`min(5, totalPages)`. -/
theorem navWindow_consecutive_bounded (currentPage total : Int) (htotal : 0 ≤ total) :
    List.Chain' (fun a b : Int => b = a + 1) (navWindow currentPage total)
      ∧ (∀ i ∈ navWindow currentPage total, 1 ≤ i ∧ i ≤ total)
      ∧ ((navWindow currentPage total).length : Int) = min 5 total := by
  refine ⟨chain_pageLoop _ _, ?_, ?_⟩
  · intro i hi
    rw [navWindow, mem_pageLoop] at hi
    obtain ⟨h1, h2⟩ := hi
    simp only [startPage, endPage] at h1 h2
    split at h1 <;> omega
  · rw [navWindow, length_pageLoop]
    simp only [startPage, endPage]
    split <;> omega

/-- The scenario of C3: with three pages the window is `[1, 2, 3]` on page 1
and on page 3. -/
theorem navWindow_consecutive_bounded_witness :
    (0 : Int) ≤ 3
      ∧ navWindow 1 3 = [1, 2, 3]
      ∧ navWindow 3 3 = [1, 2, 3]
      ∧ (List.Chain' (fun a b : Int => b = a + 1) (navWindow 1 3)
          ∧ (∀ i ∈ navWindow 1 3, 1 ≤ i ∧ i ≤ 3)
          ∧ ((navWindow 1 3).length : Int) = min 5 3) :=
  ⟨by decide, by rw [navWindow, pageLoop_eq]; decide, by rw [navWindow, pageLoop_eq]; decide,
    navWindow_consecutive_bounded 1 3 (by decide)⟩

/-! ## Sorting -/

theorem strLt_iff_lex (x y : JSString) :
    strLt x y = true ↔ List.Lex (fun a b : Nat => a < b) x y := by
  induction x generalizing y with
  | nil =>
    cases y with
    | nil => simp [strLt, List.Lex.not_nil_right]
    | cons b bs => simp [strLt, List.Lex.nil]
  | cons a as ih =>
    cases y with
    | nil => simp [strLt, List.Lex.not_nil_right]
    | cons b bs =>
      unfold strLt
      by_cases hab : a < b
      · simp [hab, List.Lex.rel hab]
      · by_cases hba : b < a
        · simp only [hab, hba, if_false, if_true, Bool.false_eq_true, false_iff]
          intro h
          cases h with
          | cons h => exact absurd hba (lt_irrefl _)
          | rel h => exact hab h
        · have heq : a = b := by omega
          subst heq
          simp only [hab, if_false, ih, List.Lex.cons_iff]

theorem strLt_asymm {x y : JSString} (h : strLt x y = true) : strLt y x = false := by
  rw [← Bool.not_eq_true, strLt_iff_lex]
  rw [strLt_iff_lex] at h
  exact asymm h

theorem strLt_eq_false_iff (x y : JSString) : strLt y x = false ↔ strLe x y := by
  unfold strLe
  constructor
  · intro h
    rcases trichotomous_of (List.Lex (fun a b : Nat => a < b)) x y with h1 | h1 | h1
    · exact Or.inl ((strLt_iff_lex x y).2 h1)
    · exact Or.inr h1
    · rw [(strLt_iff_lex y x).2 h1] at h
      exact absurd h (by decide)
  · rintro (h | rfl)
    · exact strLt_asymm h
    · rw [← Bool.not_eq_true, strLt_iff_lex]
      exact irrefl _

theorem strLe_total (x y : JSString) : strLe x y ∨ strLe y x := by
  rw [← strLt_eq_false_iff, ← strLt_eq_false_iff]
  cases h : strLt y x
  · exact Or.inl rfl
  · exact Or.inr (strLt_asymm h)

theorem strLe_trans {x y z : JSString} (h1 : strLe x y) (h2 : strLe y z) : strLe x z := by
  rcases h1 with h1 | rfl
  · rcases h2 with h2 | rfl
    · rw [strLt_iff_lex] at h1 h2
      exact Or.inl ((strLt_iff_lex x z).2 (IsTrans.trans _ _ _ h1 h2))
    · exact Or.inl h1
  · exact h2

theorem compareVals_nonpos_asc {α : Type} (lt : α → α → Bool)
    (hasymm : ∀ x y, lt x y = true → lt y x = false) (x y : α) :
    compareVals lt Direction.asc x y ≤ 0 ↔ lt y x = false := by
  unfold compareVals
  cases hxy : lt x y
  · cases hyx : lt y x <;> simp
  · simp [hasymm x y hxy]

theorem compareVals_nonpos_desc {α : Type} (lt : α → α → Bool) (x y : α) :
    compareVals lt Direction.desc x y ≤ 0 ↔ lt x y = false := by
  unfold compareVals
  cases hxy : lt x y
  · cases hyx : lt y x <;> simp
  · simp

theorem compareFn_nonpos_iff (toLowerCase : JSString → JSString) (key : SortKey)
    (direction : Direction) (a b : Product) :
    compareFn toLowerCase key direction a b ≤ 0 ↔ inOrder toLowerCase key direction a b := by
  have hq : ∀ x y : ℚ, decide (x < y) = true → decide (y < x) = false := by
    intro x y h
    simp only [decide_eq_true_eq, decide_eq_false_iff_not, not_lt] at h ⊢
    exact le_of_lt h
  have hz : ∀ x y : Int, decide (x < y) = true → decide (y < x) = false := by
    intro x y h
    simp only [decide_eq_true_eq, decide_eq_false_iff_not, not_lt] at h ⊢
    exact le_of_lt h
  cases key <;> cases direction <;> simp only [compareFn, inOrder]
  · rw [compareVals_nonpos_asc strLt (fun _ _ => strLt_asymm), strLt_eq_false_iff]
  · rw [compareVals_nonpos_desc strLt, strLt_eq_false_iff]
  · rw [compareVals_nonpos_asc _ hq]; simp
  · rw [compareVals_nonpos_desc]; simp
  · rw [compareVals_nonpos_asc _ hz]; simp
  · rw [compareVals_nonpos_desc]; simp

theorem inOrder_total (toLowerCase : JSString → JSString) (key : SortKey)
    (direction : Direction) (a b : Product) :
    inOrder toLowerCase key direction a b ∨ inOrder toLowerCase key direction b a := by
  cases key <;> cases direction <;> simp only [inOrder]
  · exact strLe_total _ _
  · exact strLe_total _ _
  · exact le_total _ _
  · exact le_total _ _
  · exact le_total _ _
  · exact le_total _ _

theorem inOrder_trans (toLowerCase : JSString → JSString) (key : SortKey)
    (direction : Direction) (a b c : Product) (h1 : inOrder toLowerCase key direction a b)
    (h2 : inOrder toLowerCase key direction b c) : inOrder toLowerCase key direction a c := by
  cases key <;> cases direction <;> simp only [inOrder] at h1 h2 ⊢
  · exact strLe_trans h1 h2
  · exact strLe_trans h2 h1
  · exact le_trans h1 h2
  · exact le_trans h2 h1
  · exact le_trans h1 h2
  · exact le_trans h2 h1

theorem inOrder_of_sameKey (toLowerCase : JSString → JSString) (key : SortKey)
    (direction : Direction) (x a b : Product) (ha : sameKey toLowerCase key x a = true)
    (hb : sameKey toLowerCase key x b = true) : inOrder toLowerCase key direction a b := by
  cases key <;> cases direction <;>
    simp only [sameKey, decide_eq_true_eq] at ha hb <;> simp only [inOrder]
  · exact Or.inr (ha.symm.trans hb)
  · exact Or.inr (hb.symm.trans ha)
  · exact le_of_eq (ha.symm.trans hb)
  · exact le_of_eq (hb.symm.trans ha)
  · exact le_of_eq (ha.symm.trans hb)
  · exact le_of_eq (hb.symm.trans ha)

theorem sortBy_perm (cmp : Product → Product → Int) (arr : List Product) :
    (sortBy cmp arr).Perm arr :=
  List.perm_insertionSort _ arr

theorem sortBy_compareFn_pairwise (toLowerCase : JSString → JSString) (key : SortKey)
    (direction : Direction) (arr : List Product) :
    (sortBy (compareFn toLowerCase key direction) arr).Pairwise
      (inOrder toLowerCase key direction) := by
  haveI : IsTotal Product (fun a b => compareFn toLowerCase key direction a b ≤ 0) :=
    ⟨fun a b => by
      simp only [compareFn_nonpos_iff]; exact inOrder_total toLowerCase key direction a b⟩
  haveI : IsTrans Product (fun a b => compareFn toLowerCase key direction a b ≤ 0) :=
    ⟨fun a b c => by
      simp only [compareFn_nonpos_iff]; exact inOrder_trans toLowerCase key direction a b c⟩
  have h := List.sorted_insertionSort
    (fun a b => compareFn toLowerCase key direction a b ≤ 0) arr
  exact List.Pairwise.imp (fun {a b} hab => (compareFn_nonpos_iff _ _ _ a b).1 hab) h

theorem filter_orderedInsert {α : Type} (r : α → α → Prop) [DecidableRel r] (p : α → Bool)
    (h : ∀ a b, p a = true → p b = true → r a b) (a : α) (l : List α) :
    (l.orderedInsert r a).filter p = (a :: l).filter p := by
  induction l with
  | nil => rfl
  | cons b l ih =>
    by_cases hab : r a b
    · rw [List.orderedInsert, if_pos hab]
    · rw [List.orderedInsert, if_neg hab, List.filter_cons, ih]
      by_cases ha : p a = true
      · have hb : p b = false := by
          cases hpb : p b
          · rfl
          · exact absurd (h a b ha hpb) hab
        simp [List.filter_cons, ha, hb]
      · simp [List.filter_cons, ha]

theorem filter_insertionSort {α : Type} (r : α → α → Prop) [DecidableRel r] (p : α → Bool)
    (h : ∀ a b, p a = true → p b = true → r a b) (l : List α) :
    (l.insertionSort r).filter p = l.filter p := by
  induction l with
  | nil => rfl
  | cons a l ih =>
    rw [List.insertionSort, filter_orderedInsert r p h, List.filter_cons, List.filter_cons, ih]

/-- C4. `sortData(k, d)` leaves the view a permutation of what it was, in which
every adjacent pair `(a, b)` has `key(a) ≤ key(b)` when ascending and
`key(a) ≥ key(b)` when descending, titles being compared lower-cased and prices
and ids as numbers. -/
theorem sortData_perm_ordered (toLowerCase : JSString → JSString) (s : State) (key : SortKey)
    (direction : Direction) :
    (sortData toLowerCase s key direction).filteredProducts.Perm s.filteredProducts
      ∧ List.Chain' (inOrder toLowerCase key direction)
          (sortData toLowerCase s key direction).filteredProducts :=
  ⟨sortBy_perm _ _,
    List.Pairwise.chain' (sortBy_compareFn_pairwise toLowerCase key direction _)⟩

/-- C5. `sortData` is stable in both directions: for any record `x`, the
records whose key equals the key of `x` under the comparison rule (titles
lower-cased) follow each other in the sorted view exactly as they did
before. -/
theorem sortData_stable (toLowerCase : JSString → JSString) (s : State) (key : SortKey)
    (direction : Direction) (x : Product) :
    (sortData toLowerCase s key direction).filteredProducts.filter (sameKey toLowerCase key x)
      = s.filteredProducts.filter (sameKey toLowerCase key x) := by
  apply filter_insertionSort
  intro a b ha hb
  exact (compareFn_nonpos_iff toLowerCase key direction a b).2
    (inOrder_of_sameKey toLowerCase key direction x a b ha hb)

/-! ## CSV export -/

theorem foldl_join_step (sep : JSString) (rows : List JSString) (acc : JSString) :
    rows.foldl (fun acc x => acc ++ sep ++ x) acc = acc ++ rows.flatMap (fun x => sep ++ x) := by
  induction rows generalizing acc with
  | nil => simp
  | cons r rows ih =>
    rw [List.foldl_cons, ih, List.flatMap_cons]
    simp only [List.append_assoc]

theorem intercalate_cons (sep : JSString) (r : JSString) (rows : List JSString) :
    List.intercalate sep (r :: rows) = r ++ rows.flatMap (fun x => sep ++ x) := by
  induction rows generalizing r with
  | nil => simp [List.intercalate]
  | cons x rows ih =>
    have h := ih x
    simp only [List.intercalate, List.intersperse_cons_cons, List.flatten_cons,
      List.flatMap_cons] at h ⊢
    rw [h, List.append_assoc]

theorem join_eq_intercalate (sep : JSString) (rows : List JSString) :
    join sep rows = List.intercalate sep rows := by
  cases rows with
  | nil => simp [join, List.intercalate]
  | cons r rows => rw [join, foldl_join_step, intercalate_cons]

theorem foldl_push {α β : Type} (f : α → β) (items : List α) (rows : List β) :
    items.foldl (fun rows item => rows ++ [f item]) rows = rows ++ items.map f := by
  induction items generalizing rows with
  | nil => simp
  | cons a items ih => simp [ih]

theorem replaceQuotes_eq (value : JSString) :
    replaceQuotes value = value.flatMap (fun c => if c = 34 then [34, 34] else [c]) := by
  induction value with
  | nil => rfl
  | cons c value ih =>
    by_cases h : c = 34
    · simp [replaceQuotes, h, ih]
    · simp [replaceQuotes, h, ih]

theorem csvImg_eq_rawImage (item : Product) : csvImg item = rawImage item := by
  unfold csvImg rawImage
  rcases h : item.images with _ | (_ | ⟨first, rest⟩) <;> simp [lit]

theorem csvTitle_eq_quotedField (item : Product) : csvTitle item = quotedField item.title := by
  rw [csvTitle, quotedField, replaceQuotes_eq]
  rfl

theorem csvDesc_eq_quotedField (item : Product) :
    csvDesc item = quotedField item.description := by
  rw [csvDesc, quotedField, replaceQuotes_eq]
  rfl

theorem csvCatName_eq_quoted_name (item : Product) :
    csvCatName item = [34] ++ categoryName item ++ [34] := by
  unfold csvCatName categoryName
  cases item.category <;> rfl

/-- C6. For a non-empty view, `exportCSV` offers the header line
`id,title,price,description,category_name,image_url` followed by one row per
record of the whole view, in view order, all joined by single line feeds with
none at the end; a row is six fields joined by commas: the bare number text of
the id, the quoted title, the bare number text of the price, the quoted
description, the category name between double quotes (empty without category)
and the raw first image entry (empty without images). Nothing of it depends on
`currentPage` or `itemsPerPage`. -/
theorem exportCSV_content (numToString : ℚ → JSString) (s : State)
    (hview : s.filteredProducts ≠ []) :
    exportCSV numToString s
        = ExportResult.download
            (List.intercalate (lit "\n")
              (lit "id,title,price,description,category_name,image_url"
                :: s.filteredProducts.map (fun item =>
                    List.intercalate (lit ",")
                      [numToString item.id, quotedField item.title, numToString item.price,
                        quotedField item.description, [34] ++ categoryName item ++ [34],
                        rawImage item])))
      ∧ ∀ page size : Int,
          exportCSV numToString { s with currentPage := page, itemsPerPage := size }
            = exportCSV numToString s := by
  have hlen : s.filteredProducts.length ≠ 0 := by
    intro h; exact hview (List.length_eq_zero.1 h)
  constructor
  · unfold exportCSV
    rw [if_neg hlen]
    simp only [foldl_push, join_eq_intercalate]
    have hheader : List.intercalate (lit ",") [lit "id", lit "title", lit "price",
        lit "description", lit "category_name", lit "image_url"]
        = lit "id,title,price,description,category_name,image_url" := by decide
    have hrow : ∀ item : Product, csvRow numToString item
        = List.intercalate (lit ",") [numToString item.id, quotedField item.title,
            numToString item.price, quotedField item.description,
            [34] ++ categoryName item ++ [34], rawImage item] := by
      intro item
      rw [csvRow, csvImg_eq_rawImage, csvTitle_eq_quotedField, csvDesc_eq_quotedField,
        csvCatName_eq_quoted_name]
      simp only [List.intercalate, List.intersperse, List.flatten, List.append_assoc,
        List.append_nil]
    rw [hheader, List.singleton_append]
    congr 3
    exact List.map_congr_left (fun item _ => hrow item)
  · intro page size
    rfl

/-- A view of two records, the first with a quote in its title, a description,
a category and an image, exported as header and two rows, whatever the page and
page size are. -/
theorem exportCSV_content_witness :
    (initialState exportProducts).filteredProducts ≠ []
      ∧ exportCSV decimalString (initialState exportProducts)
          = ExportResult.download (lit "id,title,price,description,category_name,image_url\n7,\"He said \"\"hi\"\"\",3,\"d\",\"Shoes\",http://x/y.png\n2,\"a\",5,\"\",\"\",")
      ∧ (exportCSV decimalString (initialState exportProducts)
          = ExportResult.download
              (List.intercalate (lit "\n")
                (lit "id,title,price,description,category_name,image_url"
                  :: (initialState exportProducts).filteredProducts.map (fun item =>
                      List.intercalate (lit ",")
                        [decimalString item.id, quotedField item.title,
                          decimalString item.price, quotedField item.description,
                          [34] ++ categoryName item ++ [34], rawImage item])))
        ∧ ∀ page size : Int,
            exportCSV decimalString
                { initialState exportProducts with currentPage := page, itemsPerPage := size }
              = exportCSV decimalString (initialState exportProducts)) :=
  ⟨by decide, by decide,
    exportCSV_content decimalString (initialState exportProducts) (by decide)⟩

/-- C7, the code at a category name holding a double quote: for the name `a"b`
`exportCSV` writes the field `"a"b"`, the quote inside not doubled, where the
quoting applied to title and description gives `"a""b"`; without a category the
field is `""`. -/
theorem csvCatName_quote_not_doubled :
    csvCatName (withImage "x" (some "a\"b")) = lit "\"a\"b\""
      ∧ quotedField (lit "a\"b") = lit "\"a\"\"b\""
      ∧ csvCatName (withImage "x" (some "a\"b")) ≠ quotedField (lit "a\"b")
      ∧ exportCSV decimalString (initialState [withImage "x" (some "a\"b")])
          = ExportResult.download (lit "id,title,price,description,category_name,image_url\n7,\"He said \"\"hi\"\"\",3,\"d\",\"a\"b\",x")
      ∧ csvCatName (withImage "x" none) = lit "\"\"" := by
  decide

/-- C8. `exportCSV` writes the title and the description of every record as
the value between one pair of double quotes, each double quote of the value
written twice and every other character kept, in the second and fourth place
of the row; the title `He said "hi"` becomes `"He said ""hi"""`. -/
theorem csvRow_title_description_quoted (numToString : ℚ → JSString) (item : Product) :
    csvTitle item = quotedField item.title
      ∧ csvDesc item = quotedField item.description
      ∧ csvRow numToString item
          = numToString item.id ++ lit "," ++ quotedField item.title ++ lit ","
            ++ numToString item.price ++ lit "," ++ quotedField item.description ++ lit ","
            ++ csvCatName item ++ lit "," ++ csvImg item
      ∧ csvTitle (withImage "x" none) = lit "\"He said \"\"hi\"\"\"" := by
  have htitle : csvTitle item = quotedField item.title := by
    rw [csvTitle, quotedField, replaceQuotes_eq]; rfl
  have hdesc : csvDesc item = quotedField item.description := by
    rw [csvDesc, quotedField, replaceQuotes_eq]; rfl
  refine ⟨htitle, hdesc, ?_, by decide⟩
  rw [csvRow, htitle, hdesc]

/-! ## Image normalisation -/

theorem endsWith_iff (s p : JSString) : endsWith s p = true ↔ p <:+ s := by
  rw [endsWith, startsWith_iff, List.reverse_prefix]

/-- C9, the claim at the entry `["]`: it begins with `["` and ends with `"]`,
and the normalizer returns the one character `"`, which is not the entry
without its first two and last two characters (nothing is left of it). -/
theorem normalizeImage_overlap_counterexample :
    startsWith (lit "[\"]") (lit "[\"") = true
      ∧ endsWith (lit "[\"]") (lit "\"]") = true
      ∧ tableImgUrl (withImage "[\"]" none) = lit "\""
      ∧ detailImgUrl (withImage "[\"]" none) = lit "\""
      ∧ tableImgUrl (withImage "[\"]" none) ≠ ((lit "[\"]").drop 2).rdrop 2 := by
  decide

/-- C9, amended. For every record whose first image entry has at least four
characters, begins with `["` and ends with `"]`, the normalizer returns the
entry without its first two and last two characters, the inner text between
the prefix and the suffix. -/
theorem normalizeImage_strips (fallback : JSString) (product : Product) (entry : JSString)
    (rest : List JSString) (himages : product.images = some (entry :: rest))
    (hbegins : startsWith entry (lit "[\"") = true)
    (hends : endsWith entry (lit "\"]") = true) (hlen : 4 ≤ entry.length) :
    normalizeImage fallback product = (entry.drop 2).rdrop 2
      ∧ entry = lit "[\"" ++ normalizeImage fallback product ++ lit "\"]" := by
  have hval : normalizeImage fallback product = (entry.drop 2).take (entry.length - 4) := by
    unfold normalizeImage
    rw [himages]
    simp only [hbegins, hends, Bool.and_self, if_true, substring, clampIndex]
    have h1 : min (max (2 : Int) 0).toNat entry.length = 2 := by omega
    have h2 : min (max ((entry.length : Int) - 2) 0).toNat entry.length = entry.length - 2 := by
      omega
    rw [h1, h2]
    have h3 : min 2 (entry.length - 2) = 2 := by omega
    have h4 : max 2 (entry.length - 2) - 2 = entry.length - 4 := by omega
    rw [h3, h4]
  constructor
  · rw [hval, List.rdrop, List.length_drop]
    congr 1
  · rw [startsWith_iff] at hbegins
    rw [endsWith_iff] at hends
    obtain ⟨t, ht⟩ := hbegins
    obtain ⟨u, hu⟩ := hends
    have hl2 : (lit "\"]").length = 2 := by decide
    have hl1 : (lit "[\"").length = 2 := by decide
    have hdrop : entry.drop 2 = t := by
      rw [← ht, ← hl1, List.drop_left]
    have htlen : t.length = entry.length - 2 := by
      rw [← hdrop, List.length_drop]
    have hulen : u.length = entry.length - 2 := by
      have := congrArg List.length hu
      rw [List.length_append, hl2] at this
      omega
    have htail : t.drop (entry.length - 4) = lit "\"]" := by
      have h5 : entry.drop (entry.length - 2) = lit "\"]" := by
        rw [← hulen]
        conv_lhs => rw [← hu]
        rw [List.drop_left]
      rw [← hdrop, List.drop_drop]
      have : 2 + (entry.length - 4) = entry.length - 2 := by omega
      rw [this, h5]
    rw [hval, hdrop, List.append_assoc, ← htail, List.take_append_drop, ht]

/-- The round trip of C9: the entry `["http://x/y.png"]` gives
`http://x/y.png`. -/
theorem normalizeImage_strips_witness :
    (withImage "[\"http://x/y.png\"]" none).images = some [lit "[\"http://x/y.png\"]"]
      ∧ startsWith (lit "[\"http://x/y.png\"]") (lit "[\"") = true
      ∧ endsWith (lit "[\"http://x/y.png\"]") (lit "\"]") = true
      ∧ 4 ≤ (lit "[\"http://x/y.png\"]").length
      ∧ tableImgUrl (withImage "[\"http://x/y.png\"]" none) = lit "http://x/y.png"
      ∧ (normalizeImage (lit "https://via.placeholder.com/50")
            (withImage "[\"http://x/y.png\"]" none)
          = ((lit "[\"http://x/y.png\"]").drop 2).rdrop 2
        ∧ lit "[\"http://x/y.png\"]"
          = lit "[\"" ++ normalizeImage (lit "https://via.placeholder.com/50")
              (withImage "[\"http://x/y.png\"]" none) ++ lit "\"]") :=
  ⟨rfl, by decide, by decide, by decide, by decide,
    normalizeImage_strips (lit "https://via.placeholder.com/50")
      (withImage "[\"http://x/y.png\"]" none) (lit "[\"http://x/y.png\"]") [] rfl
      (by decide) (by decide) (by decide)⟩

/-! ## The view in reachable states -/

theorem handleSort_sortConfig (toLowerCase : JSString → JSString) (s : State) (key : SortKey) :
    (handleSort toLowerCase s key).sortConfig.key = some key := by
  unfold handleSort sortData
  by_cases h : s.sortConfig.key = some key
  · simp [h]
  · simp [h]

theorem handleSort_filteredProducts (toLowerCase : JSString → JSString) (s : State)
    (key : SortKey) :
    (handleSort toLowerCase s key).filteredProducts
      = sortBy (compareFn toLowerCase key (handleSort toLowerCase s key).sortConfig.direction)
          s.filteredProducts := by
  unfold handleSort sortData
  rfl

/-- C10, the claim after `handleSort('title')` and then `handleSort('price')`
on two products of equal price: the view keeps the order the title sort gave
it, the second record first, while the collection filtered by the latest query
and sorted by the current sort state (price, ascending) has the first record
first. -/
theorem view_depends_on_earlier_sort_counterexample :
    Reachable asciiLower tieProducts none
        (handleSort asciiLower (handleSort asciiLower (initialState tieProducts) SortKey.title)
          SortKey.price)
      ∧ (handleSort asciiLower (handleSort asciiLower (initialState tieProducts) SortKey.title)
          SortKey.price).sortConfig = { key := some SortKey.price, direction := Direction.asc }
      ∧ (handleSort asciiLower (handleSort asciiLower (initialState tieProducts) SortKey.title)
          SortKey.price).filteredProducts = [sample 2 "a" 5, sample 1 "b" 5]
      ∧ rederivedView asciiLower tieProducts none
          { key := some SortKey.price, direction := Direction.asc }
          = [sample 1 "b" 5, sample 2 "a" 5]
      ∧ (handleSort asciiLower (handleSort asciiLower (initialState tieProducts) SortKey.title)
          SortKey.price).filteredProducts
        ≠ rederivedView asciiLower tieProducts none
            (handleSort asciiLower
              (handleSort asciiLower (initialState tieProducts) SortKey.title)
              SortKey.price).sortConfig :=
  ⟨Reachable.sort SortKey.price (Reachable.sort SortKey.title Reachable.load (Or.inl rfl))
      (Or.inr rfl),
    by decide, by decide, by decide, by decide⟩

/-- C10, amended. In every state reached from the initial load by calls of
`handleSearch`, `handleSort` (keys `title` and `price`) and `handlePageChange`,
the collection is the loaded one and the view is a rearrangement of the
collection filtered by the latest query alone: in collection order when no sort
key is set, and ordered by the key and direction of the sort state when one is
set (records of equal key in an order that earlier sorts may have decided). -/
theorem reachable_view (toLowerCase : JSString → JSString) (collection : List Product)
    (latest : Option JSString) (s : State)
    (hreach : Reachable toLowerCase collection latest s) :
    s.allProducts = collection
      ∧ s.filteredProducts.Perm (derivedView toLowerCase collection latest)
      ∧ (s.sortConfig.key = none →
          s.filteredProducts = derivedView toLowerCase collection latest)
      ∧ (∀ key, s.sortConfig.key = some key →
          s.filteredProducts.Pairwise (inOrder toLowerCase key s.sortConfig.direction)) := by
  induction hreach with
  | load =>
    refine ⟨rfl, List.Perm.refl _, fun _ => rfl, ?_⟩
    intro key hkey
    simp [initialState] at hkey
  | @search latest s query _ ih =>
    obtain ⟨hall, _, _, _⟩ := ih
    unfold handleSearch
    cases hk : s.sortConfig.key with
    | none =>
      simp only [hk]
      refine ⟨hall, ?_, ?_, ?_⟩
      · rw [hall]; exact List.Perm.refl _
      · intro _; rw [hall]; rfl
      · intro key hkey; exact absurd hkey (by simp)
    | some k =>
      simp only [hk, sortData]
      refine ⟨hall, ?_, ?_, ?_⟩
      · rw [hall]; exact sortBy_perm _ _
      · intro hnone; exact absurd hnone (by simp)
      · intro key hkey
        cases hkey
        exact sortBy_compareFn_pairwise toLowerCase k _ _
  | @sort latest s key _ _ ih =>
    obtain ⟨hall, hperm, _, _⟩ := ih
    refine ⟨hall, ?_, ?_, ?_⟩
    · rw [handleSort_filteredProducts]
      exact (sortBy_perm _ _).trans hperm
    · intro hnone
      rw [handleSort_sortConfig] at hnone
      exact absurd hnone (by simp)
    · intro k hk
      rw [handleSort_sortConfig] at hk
      cases hk
      rw [handleSort_filteredProducts]
      exact sortBy_compareFn_pairwise toLowerCase key _ _
  | @page latest s page _ ih =>
    unfold handlePageChange
    split
    · exact ih
    · exact ih

/-- The amended C10 at the state reached by `handleSearch("")`, then
`handleSort('title')`, then `handleSort('price')` on two products of equal
price. -/
theorem reachable_view_witness :
    Reachable asciiLower tieProducts (some [])
        (handleSort asciiLower
          (handleSort asciiLower (handleSearch asciiLower (initialState tieProducts) [])
            SortKey.title) SortKey.price)
      ∧ ((handleSort asciiLower
            (handleSort asciiLower (handleSearch asciiLower (initialState tieProducts) [])
              SortKey.title) SortKey.price).allProducts = tieProducts
        ∧ (handleSort asciiLower
            (handleSort asciiLower (handleSearch asciiLower (initialState tieProducts) [])
              SortKey.title) SortKey.price).filteredProducts.Perm
            (derivedView asciiLower tieProducts (some []))
        ∧ ((handleSort asciiLower
              (handleSort asciiLower (handleSearch asciiLower (initialState tieProducts) [])
                SortKey.title) SortKey.price).sortConfig.key = none →
            (handleSort asciiLower
              (handleSort asciiLower (handleSearch asciiLower (initialState tieProducts) [])
                SortKey.title) SortKey.price).filteredProducts
              = derivedView asciiLower tieProducts (some []))
        ∧ (∀ key,
            (handleSort asciiLower
              (handleSort asciiLower (handleSearch asciiLower (initialState tieProducts) [])
                SortKey.title) SortKey.price).sortConfig.key = some key →
            (handleSort asciiLower
              (handleSort asciiLower (handleSearch asciiLower (initialState tieProducts) [])
                SortKey.title) SortKey.price).filteredProducts.Pairwise
              (inOrder asciiLower key
                (handleSort asciiLower
                  (handleSort asciiLower (handleSearch asciiLower (initialState tieProducts) [])
                    SortKey.title) SortKey.price).sortConfig.direction))) :=
  ⟨Reachable.sort SortKey.price
      (Reachable.sort SortKey.title (Reachable.search [] Reachable.load) (Or.inl rfl))
      (Or.inr rfl),
    reachable_view asciiLower tieProducts (some []) _
      (Reachable.sort SortKey.price
        (Reachable.sort SortKey.title (Reachable.search [] Reachable.load) (Or.inl rfl))
        (Or.inr rfl))⟩

/-! ## Page changes -/

theorem totalPages_zero (itemsPerPage : Int) (h : 0 < itemsPerPage) :
    totalPages 0 itemsPerPage = 0 := by
  have hb := totalPages_bounds 0 itemsPerPage h
  have hn := totalPages_nonneg 0 itemsPerPage h
  by_contra hne
  have hpos : 0 < totalPages 0 itemsPerPage - 1 ∨ totalPages 0 itemsPerPage - 1 = 0 := by omega
  rcases hpos with hpos | hzero
  · have := Int.mul_pos hpos h
    have h1 := hb.1
    simp only [Nat.cast_zero] at h1
    omega
  · have h1 := hb.1
    rw [hzero] at h1
    simp at h1

theorem one_le_totalPages (length : Nat) (itemsPerPage : Int) (h : 0 < itemsPerPage)
    (hlength : 0 < length) : 1 ≤ totalPages length itemsPerPage := by
  have hb := (totalPages_bounds length itemsPerPage h).2
  by_contra hlt
  have hle : totalPages length itemsPerPage ≤ 0 := by omega
  have : totalPages length itemsPerPage * itemsPerPage ≤ 0 :=
    Int.mul_nonpos_of_nonpos_of_nonneg hle (le_of_lt h)
  omega

/-- C11. With a positive page size, `handlePageChange(page)` leaves the whole
state as it is for every `page` outside `[1, ceil(|View| / pageSize)]`, and for
every `page` inside sets `currentPage` to `page` and changes nothing else; so
the state changes only for a page of that range, and never when the view is
empty. -/
theorem handlePageChange_in_range_only (s : State) (page : Int) (hsize : 0 < s.itemsPerPage) :
    (page < 1 ∨ totalPages s.filteredProducts.length s.itemsPerPage < page →
        handlePageChange s page = s)
      ∧ (1 ≤ page ∧ page ≤ totalPages s.filteredProducts.length s.itemsPerPage →
        handlePageChange s page = { s with currentPage := page })
      ∧ (handlePageChange s page ≠ s →
        1 ≤ page ∧ page ≤ totalPages s.filteredProducts.length s.itemsPerPage)
      ∧ (s.filteredProducts = [] → handlePageChange s page = s) := by
  have hout : page < 1 ∨ totalPages s.filteredProducts.length s.itemsPerPage < page →
      handlePageChange s page = s := by
    intro h
    unfold handlePageChange
    rw [if_pos h]
  refine ⟨hout, ?_, ?_, ?_⟩
  · intro h
    unfold handlePageChange
    rw [if_neg (by omega)]
  · intro hne
    by_contra hrange
    exact hne (hout (by omega))
  · intro hempty
    apply hout
    rw [hempty, List.length_nil, totalPages_zero _ hsize]
    omega

/-- C11 on twelve records with the initial page size 10: page 2 is accepted,
page 3 and page 0 are not. -/
theorem handlePageChange_in_range_only_witness :
    0 < (initialState twelveProducts).itemsPerPage
      ∧ (handlePageChange (initialState twelveProducts) 2).currentPage = 2
      ∧ (((2 : Int) < 1 ∨ totalPages (initialState twelveProducts).filteredProducts.length
              (initialState twelveProducts).itemsPerPage < 2 →
            handlePageChange (initialState twelveProducts) 2 = initialState twelveProducts)
        ∧ ((1 : Int) ≤ 2 ∧ 2 ≤ totalPages (initialState twelveProducts).filteredProducts.length
              (initialState twelveProducts).itemsPerPage →
            handlePageChange (initialState twelveProducts) 2
              = { initialState twelveProducts with currentPage := 2 })
        ∧ (handlePageChange (initialState twelveProducts) 2 ≠ initialState twelveProducts →
            (1 : Int) ≤ 2 ∧ 2 ≤ totalPages (initialState twelveProducts).filteredProducts.length
              (initialState twelveProducts).itemsPerPage)
        ∧ ((initialState twelveProducts).filteredProducts = [] →
            handlePageChange (initialState twelveProducts) 2 = initialState twelveProducts)) := by
  have h := handlePageChange_in_range_only (initialState twelveProducts) 2 (by decide)
  have htotal : totalPages (initialState twelveProducts).filteredProducts.length
      (initialState twelveProducts).itemsPerPage = 2 := by
    have hlen : (initialState twelveProducts).filteredProducts.length = 12 := by decide
    have hipp : (initialState twelveProducts).itemsPerPage = 10 := rfl
    rw [hlen, hipp]
    unfold totalPages
    rw [Int.ceil_eq_iff]
    norm_num
  refine ⟨by decide, ?_, h⟩
  rw [h.2.1 ⟨by decide, by rw [htotal]⟩]

/-! ## The current page in reachable states -/

theorem sortBy_length (cmp : Product → Product → Int) (arr : List Product) :
    (sortBy cmp arr).length = arr.length :=
  (sortBy_perm cmp arr).length_eq

theorem handleSort_pagination (toLowerCase : JSString → JSString) (s : State) (key : SortKey) :
    (handleSort toLowerCase s key).currentPage = s.currentPage
      ∧ (handleSort toLowerCase s key).itemsPerPage = s.itemsPerPage
      ∧ (handleSort toLowerCase s key).filteredProducts.length = s.filteredProducts.length := by
  refine ⟨rfl, rfl, ?_⟩
  rw [handleSort_filteredProducts, sortBy_length]

theorem handleSearch_pagination (toLowerCase : JSString → JSString) (s : State)
    (query : JSString) :
    (handleSearch toLowerCase s query).currentPage = 1
      ∧ (handleSearch toLowerCase s query).itemsPerPage = s.itemsPerPage := by
  unfold handleSearch
  cases h : s.sortConfig.key <;> simp [h, sortData]

theorem currentPage_valid_of_one (s : State) (hsize : 0 < s.itemsPerPage)
    (hpage : s.currentPage = 1) :
    (s.filteredProducts ≠ [] →
        1 ≤ s.currentPage
          ∧ s.currentPage ≤ totalPages s.filteredProducts.length s.itemsPerPage)
      ∧ (s.filteredProducts = [] → s.currentPage = 1) := by
  refine ⟨?_, fun _ => hpage⟩
  intro hne
  rw [hpage]
  exact ⟨le_refl 1, one_le_totalPages _ _ hsize (List.length_pos.2 hne)⟩

/-- C12. In every state reached from the initial load by calls of
`handleSearch`, `handleSort`, `handlePageChange` and changes of the page size
to a positive value, the page size is positive, `currentPage` lies in
`[1, ceil(|View| / pageSize)]` when the view is not empty, and `currentPage` is
1 when the view is empty. -/
theorem reachable_currentPage (toLowerCase : JSString → JSString) (collection : List Product)
    (s : State) (hreach : ReachablePaged toLowerCase collection s) :
    0 < s.itemsPerPage
      ∧ (s.filteredProducts ≠ [] →
          1 ≤ s.currentPage
            ∧ s.currentPage ≤ totalPages s.filteredProducts.length s.itemsPerPage)
      ∧ (s.filteredProducts = [] → s.currentPage = 1) := by
  induction hreach with
  | load =>
    have hsize : 0 < (initialState collection).itemsPerPage := by
      show (0 : Int) < 10
      decide
    exact ⟨hsize, currentPage_valid_of_one (initialState collection) hsize rfl⟩
  | @search s query _ ih =>
    obtain ⟨hsize, _, _⟩ := ih
    obtain ⟨hpage, hipp⟩ := handleSearch_pagination toLowerCase s query
    have hsize' : 0 < (handleSearch toLowerCase s query).itemsPerPage := by rw [hipp]; exact hsize
    exact ⟨hsize', currentPage_valid_of_one _ hsize' hpage⟩
  | @sort s key _ ih =>
    obtain ⟨hsize, hfull, hempty⟩ := ih
    obtain ⟨hpage, hipp, hlen⟩ := handleSort_pagination toLowerCase s key
    rw [hpage, hipp, hlen]
    refine ⟨hsize, ?_, ?_⟩
    · intro hne
      apply hfull
      intro hnil
      rw [hnil] at hlen
      exact hne (List.length_eq_zero.1 hlen)
    · intro hnil
      apply hempty
      rw [hnil] at hlen
      exact List.length_eq_zero.1 hlen.symm
  | @page s page _ ih =>
    obtain ⟨hsize, hfull, hempty⟩ := ih
    unfold handlePageChange
    split
    · exact ⟨hsize, hfull, hempty⟩
    · rename_i hguard
      refine ⟨hsize, ?_, ?_⟩
      · intro _
        show 1 ≤ page ∧ page ≤ totalPages s.filteredProducts.length s.itemsPerPage
        omega
      · intro hnil
        exfalso
        apply hguard
        have hnil' : s.filteredProducts = [] := hnil
        rw [hnil', List.length_nil, totalPages_zero _ hsize]
        omega
  | @size s value _ hvalue _ =>
    exact ⟨hvalue, currentPage_valid_of_one (changeItemsPerPage s value) hvalue rfl⟩

/-- C12 at the state reached on twelve records by a change of the page size to
5, a move to page 3 and a search for "item". -/
theorem reachable_currentPage_witness :
    ReachablePaged asciiLower twelveProducts
        (handleSearch asciiLower
          (handlePageChange (changeItemsPerPage (initialState twelveProducts) 5) 3)
          (lit "item"))
      ∧ (0 < (handleSearch asciiLower
            (handlePageChange (changeItemsPerPage (initialState twelveProducts) 5) 3)
            (lit "item")).itemsPerPage
        ∧ ((handleSearch asciiLower
              (handlePageChange (changeItemsPerPage (initialState twelveProducts) 5) 3)
              (lit "item")).filteredProducts ≠ [] →
            1 ≤ (handleSearch asciiLower
                (handlePageChange (changeItemsPerPage (initialState twelveProducts) 5) 3)
                (lit "item")).currentPage
              ∧ (handleSearch asciiLower
                  (handlePageChange (changeItemsPerPage (initialState twelveProducts) 5) 3)
                  (lit "item")).currentPage
                ≤ totalPages
                    (handleSearch asciiLower
                      (handlePageChange (changeItemsPerPage (initialState twelveProducts) 5) 3)
                      (lit "item")).filteredProducts.length
                    (handleSearch asciiLower
                      (handlePageChange (changeItemsPerPage (initialState twelveProducts) 5) 3)
                      (lit "item")).itemsPerPage)
        ∧ ((handleSearch asciiLower
              (handlePageChange (changeItemsPerPage (initialState twelveProducts) 5) 3)
              (lit "item")).filteredProducts = [] →
            (handleSearch asciiLower
              (handlePageChange (changeItemsPerPage (initialState twelveProducts) 5) 3)
              (lit "item")).currentPage = 1)) :=
  ⟨ReachablePaged.search (lit "item")
      (ReachablePaged.page 3 (ReachablePaged.size 5 ReachablePaged.load (by decide))),
    reachable_currentPage asciiLower twelveProducts _
      (ReachablePaged.search (lit "item")
        (ReachablePaged.page 3 (ReachablePaged.size 5 ReachablePaged.load (by decide))))⟩

/-! ## Sort state -/

theorem handleSort_direction (toLowerCase : JSString → JSString) (s : State) (key : SortKey) :
    (handleSort toLowerCase s key).sortConfig.direction
      = if s.sortConfig.key = some key then opposite s.sortConfig.direction
        else Direction.asc := by
  unfold handleSort sortData
  by_cases h : s.sortConfig.key = some key
  · cases hd : s.sortConfig.direction <;> simp [h, hd, opposite]
  · simp [h]

/-- C13. For every sort state and every key `k`, `handleSort(k)` leaves the
sort state with key `k` and with the direction opposite to the former one when
the former key was `k`, ascending when it was another key or none; the view is
then the former view sorted by that key and direction: a rearrangement of it
in which every record stands in order before every later one. -/
theorem handleSort_toggles (toLowerCase : JSString → JSString) (s : State) (key : SortKey) :
    (handleSort toLowerCase s key).sortConfig
        = { key := some key
            direction := if s.sortConfig.key = some key then opposite s.sortConfig.direction
                         else Direction.asc }
      ∧ (handleSort toLowerCase s key).filteredProducts
          = (sortData toLowerCase s key
              (handleSort toLowerCase s key).sortConfig.direction).filteredProducts
      ∧ (handleSort toLowerCase s key).filteredProducts.Perm s.filteredProducts
      ∧ (handleSort toLowerCase s key).filteredProducts.Pairwise
          (inOrder toLowerCase key (handleSort toLowerCase s key).sortConfig.direction) := by
  refine ⟨?_, ?_, ?_, ?_⟩
  · have hk := handleSort_sortConfig toLowerCase s key
    have hd := handleSort_direction toLowerCase s key
    cases hcfg : (handleSort toLowerCase s key).sortConfig with
    | mk k d =>
      rw [hcfg] at hk hd
      simp only at hk hd
      rw [hk, hd]
  · rw [handleSort_filteredProducts]
    rfl
  · rw [handleSort_filteredProducts]
    exact sortBy_perm _ _
  · rw [handleSort_filteredProducts]
    exact sortBy_compareFn_pairwise toLowerCase key _ _

/-- C14. `handleSearch(q)` leaves the sort state as it is and leaves as view
the collection filtered by `q` and, when a sort key is set, sorted by that key
and the direction of the sort state; with no key set the view is the filtered
collection in collection order. With the sort state (price, descending) the
query "shirt" gives "SHIRT XL" before "Red Shirt". -/
theorem handleSearch_reapplies_sort (toLowerCase : JSString → JSString) (s : State)
    (q : JSString) :
    (handleSearch toLowerCase s q).sortConfig = s.sortConfig
      ∧ (handleSearch toLowerCase s q).allProducts = s.allProducts
      ∧ (handleSearch toLowerCase s q).filteredProducts
          = (match s.sortConfig.key with
            | some key =>
              (sortData toLowerCase
                { s with
                  filteredProducts := s.allProducts.filter
                    (fun p => decide (toLowerCase q <:+: toLowerCase p.title)) }
                key s.sortConfig.direction).filteredProducts
            | none =>
              s.allProducts.filter (fun p => decide (toLowerCase q <:+: toLowerCase p.title)))
      ∧ (handleSearch asciiLower
            { initialState shirtProducts with
              sortConfig := { key := some SortKey.price, direction := Direction.desc } }
            (lit "shirt")).filteredProducts
          = [sample 3 "SHIRT XL" 30, sample 1 "Red Shirt" 10] := by
  have hfilter : s.allProducts.filter
        (fun p => includes (toLowerCase p.title) (toLowerCase q))
      = s.allProducts.filter (fun p => decide (toLowerCase q <:+: toLowerCase p.title)) := by
    apply List.filter_congr
    intro p _
    by_cases h : toLowerCase q <:+: toLowerCase p.title
    · simp [h, (includes_iff _ _).2 h]
    · have : includes (toLowerCase p.title) (toLowerCase q) = false := by
        rw [← Bool.not_eq_true, includes_iff]; exact h
      simp [h, this]
  refine ⟨?_, ?_, ?_, by decide⟩
  · unfold handleSearch
    cases h : s.sortConfig.key <;> simp [h, sortData]
  · unfold handleSearch
    cases h : s.sortConfig.key <;> simp [h, sortData]
  · unfold handleSearch
    cases h : s.sortConfig.key with
    | none => simp only [h]; exact hfilter
    | some key => simp only [h, sortData, hfilter]

/-! ## Sorting twice -/

theorem sortBy_compareFn_sorted (toLowerCase : JSString → JSString) (key : SortKey)
    (direction : Direction) (arr : List Product) :
    List.Sorted (fun a b => compareFn toLowerCase key direction a b ≤ 0)
      (sortBy (compareFn toLowerCase key direction) arr) := by
  haveI : IsTotal Product (fun a b => compareFn toLowerCase key direction a b ≤ 0) :=
    ⟨fun a b => by
      simp only [compareFn_nonpos_iff]; exact inOrder_total toLowerCase key direction a b⟩
  haveI : IsTrans Product (fun a b => compareFn toLowerCase key direction a b ≤ 0) :=
    ⟨fun a b c => by
      simp only [compareFn_nonpos_iff]; exact inOrder_trans toLowerCase key direction a b c⟩
  exact List.sorted_insertionSort
    (fun a b => compareFn toLowerCase key direction a b ≤ 0) arr

theorem strLe_antisymm {x y : JSString} (h1 : strLe x y) (h2 : strLe y x) : x = y := by
  rcases h1 with h1 | rfl
  · rcases h2 with h2 | rfl
    · rw [strLt_asymm h1] at h2
      exact absurd h2 (by decide)
    · rfl
  · rfl

theorem sameKey_of_inOrder (toLowerCase : JSString → JSString) (key : SortKey)
    (direction : Direction) (a b : Product) (h1 : inOrder toLowerCase key direction a b)
    (h2 : inOrder toLowerCase key direction b a) : sameKey toLowerCase key a b = true := by
  cases key <;> cases direction <;>
    simp only [inOrder] at h1 h2 <;> simp only [sameKey, decide_eq_true_eq]
  · exact strLe_antisymm h1 h2
  · exact strLe_antisymm h2 h1
  · exact le_antisymm h1 h2
  · exact le_antisymm h2 h1
  · exact le_antisymm h1 h2
  · exact le_antisymm h2 h1

theorem sameKey_comm (toLowerCase : JSString → JSString) (key : SortKey) (a b : Product) :
    sameKey toLowerCase key a b = sameKey toLowerCase key b a := by
  cases key <;> simp only [sameKey, eq_comm]

theorem inOrder_desc_iff (toLowerCase : JSString → JSString) (key : SortKey) (a b : Product) :
    inOrder toLowerCase key Direction.desc a b ↔ inOrder toLowerCase key Direction.asc b a := by
  cases key <;> exact Iff.rfl

theorem eq_of_perm_of_inOrder (toLowerCase : JSString → JSString) (key : SortKey)
    (direction : Direction) (l₁ l₂ : List Product) (hperm : l₁.Perm l₂)
    (h1 : l₁.Pairwise (inOrder toLowerCase key direction))
    (h2 : l₂.Pairwise (inOrder toLowerCase key direction))
    (hdistinct : l₁.Pairwise (fun a b => sameKey toLowerCase key a b = false)) : l₁ = l₂ := by
  have hdistinct2 : l₂.Pairwise (fun a b => sameKey toLowerCase key a b = false) :=
    (List.Perm.pairwise_iff
      (fun {x y} (h : sameKey toLowerCase key x y = false) => by
        rw [sameKey_comm]; exact h) hperm).1 hdistinct
  haveI : IsAntisymm Product
      (fun a b => inOrder toLowerCase key direction a b ∧ sameKey toLowerCase key a b = false) :=
    ⟨fun a b hab hba => by
      have := sameKey_of_inOrder toLowerCase key direction a b hab.1 hba.1
      rw [hab.2] at this
      exact absurd this (by decide)⟩
  exact List.eq_of_perm_of_sorted hperm (h1.and hdistinct) (h2.and hdistinct2)

/-- C15. When no two records of the view have equal keys under the comparison
rule (titles lower-cased), sorting ascending and then descending by the key
gives the reversal of the ascending view. -/
theorem sortData_asc_then_desc (toLowerCase : JSString → JSString) (s : State) (key : SortKey)
    (hdistinct : s.filteredProducts.Pairwise
      (fun a b => sameKey toLowerCase key a b = false)) :
    (sortData toLowerCase (sortData toLowerCase s key Direction.asc) key
        Direction.desc).filteredProducts
      = (sortData toLowerCase s key Direction.asc).filteredProducts.reverse := by
  simp only [sortData]
  have hasc := sortBy_compareFn_pairwise toLowerCase key Direction.asc s.filteredProducts
  have hpermAsc := sortBy_perm (compareFn toLowerCase key Direction.asc) s.filteredProducts
  apply eq_of_perm_of_inOrder toLowerCase key Direction.desc
  · exact (sortBy_perm _ _).trans (List.reverse_perm _).symm
  · exact sortBy_compareFn_pairwise toLowerCase key Direction.desc _
  · rw [List.pairwise_reverse]
    exact hasc.imp (fun {a b} h => (inOrder_desc_iff toLowerCase key b a).2 h)
  · exact (List.Perm.pairwise_iff
      (fun {x y} (h : sameKey toLowerCase key x y = false) => by
        rw [sameKey_comm]; exact h)
      ((sortBy_perm _ _).trans hpermAsc)).2 hdistinct

/-- C15 on three products of different prices: ascending then descending by
price lists them from the dearest to the cheapest. -/
theorem sortData_asc_then_desc_witness :
    (initialState shirtProducts).filteredProducts.Pairwise
        (fun a b => sameKey asciiLower SortKey.price a b = false)
      ∧ (sortData asciiLower (sortData asciiLower (initialState shirtProducts) SortKey.price
          Direction.asc) SortKey.price Direction.desc).filteredProducts
          = [sample 3 "SHIRT XL" 30, sample 2 "Pants" 20, sample 1 "Red Shirt" 10]
      ∧ (sortData asciiLower (sortData asciiLower (initialState shirtProducts) SortKey.price
          Direction.asc) SortKey.price Direction.desc).filteredProducts
          = (sortData asciiLower (initialState shirtProducts) SortKey.price
              Direction.asc).filteredProducts.reverse :=
  ⟨by decide, by decide,
    sortData_asc_then_desc asciiLower (initialState shirtProducts) SortKey.price (by decide)⟩

/-- C16. The function `sortData` is idempotent: sorting a second time by the
same key and direction changes nothing, whether or not records have equal
keys. -/
theorem sortData_idempotent (toLowerCase : JSString → JSString) (s : State) (key : SortKey)
    (direction : Direction) :
    sortData toLowerCase (sortData toLowerCase s key direction) key direction
      = sortData toLowerCase s key direction := by
  simp only [sortData]
  congr 1
  exact List.Sorted.insertionSort_eq
    (sortBy_compareFn_sorted toLowerCase key direction s.filteredProducts)

/-! ## Fallbacks of the image normalisation -/

/-- C17, the claim at a record without images: the table row gets
`https://via.placeholder.com/50` and the detail modal gets
`https://via.placeholder.com/300`, two different placeholder URLs for the same
record. -/
theorem placeholder_per_site_counterexample :
    (sample 1 "t" 1).images = none
      ∧ tableImgUrl (sample 1 "t" 1) = lit "https://via.placeholder.com/50"
      ∧ detailImgUrl (sample 1 "t" 1) = lit "https://via.placeholder.com/300"
      ∧ tableImgUrl (sample 1 "t" 1) ≠ detailImgUrl (sample 1 "t" 1) := by
  decide

/-- C17, amended. The normalizer is a total function of the record. For every
record whose images field is absent or empty it returns the fixed placeholder
URL of the place it is used in, `https://via.placeholder.com/50` for a table
row and `https://via.placeholder.com/300` for the detail modal; for every
record whose first image entry does not both begin with `["` and end with `"]`
it returns that entry unchanged in both places. -/
theorem normalizeImage_fallbacks (product : Product) :
    (product.images = none ∨ product.images = some [] →
        tableImgUrl product = lit "https://via.placeholder.com/50"
          ∧ detailImgUrl product = lit "https://via.placeholder.com/300")
      ∧ (∀ (entry : JSString) (rest : List JSString),
          product.images = some (entry :: rest) →
          ¬ (startsWith entry (lit "[\"") = true ∧ endsWith entry (lit "\"]") = true) →
          tableImgUrl product = entry ∧ detailImgUrl product = entry) := by
  constructor
  · rintro (h | h) <;> simp [tableImgUrl, detailImgUrl, normalizeImage, h]
  · intro entry rest himages hnot
    have hcond : (startsWith entry (lit "[\"") && endsWith entry (lit "\"]")) = false := by
      rw [← Bool.not_eq_true, Bool.and_eq_true]
      exact hnot
    simp [tableImgUrl, detailImgUrl, normalizeImage, himages, hcond]

/-- The amended C17 on an ordinary URL: `http://x/y.png` passes through
unchanged in both places. -/
theorem normalizeImage_fallbacks_witness :
    (withImage "http://x/y.png" none).images = some [lit "http://x/y.png"]
      ∧ ¬ (startsWith (lit "http://x/y.png") (lit "[\"") = true
            ∧ endsWith (lit "http://x/y.png") (lit "\"]") = true)
      ∧ (tableImgUrl (withImage "http://x/y.png" none) = lit "http://x/y.png"
          ∧ detailImgUrl (withImage "http://x/y.png" none) = lit "http://x/y.png") :=
  ⟨rfl, by decide,
    (normalizeImage_fallbacks (withImage "http://x/y.png" none)).2 (lit "http://x/y.png") []
      rfl (by decide)⟩

/-! ## Export of an empty view -/

/-- C18. On an empty view `exportCSV` raises the alert "No data to export" and
offers no text, not even the header; on every non-empty view it offers a CSV
text and raises no alert. -/
theorem exportCSV_alert_iff_empty (numToString : ℚ → JSString) (s : State) :
    (exportCSV numToString s = ExportResult.alert (lit "No data to export")
        ↔ s.filteredProducts = [])
      ∧ ((∃ csvContent, exportCSV numToString s = ExportResult.download csvContent)
        ↔ s.filteredProducts ≠ []) := by
  by_cases hempty : s.filteredProducts = []
  · have h : exportCSV numToString s = ExportResult.alert (lit "No data to export") := by
      unfold exportCSV
      rw [if_pos (by rw [hempty]; rfl)]
    refine ⟨⟨fun _ => hempty, fun _ => h⟩, ⟨?_, fun hne => absurd hempty hne⟩⟩
    rintro ⟨csvContent, hc⟩
    rw [h] at hc
    exact absurd hc (by simp)
  · have hlen : s.filteredProducts.length ≠ 0 := fun hz => hempty (List.length_eq_zero.1 hz)
    have h : ∃ csvContent, exportCSV numToString s = ExportResult.download csvContent := by
      unfold exportCSV
      rw [if_neg hlen]
      exact ⟨_, rfl⟩
    obtain ⟨csvContent, hc⟩ := h
    refine ⟨⟨?_, fun he => absurd he hempty⟩, ⟨fun _ => hempty, fun _ => ⟨csvContent, hc⟩⟩⟩
    intro ha
    rw [hc] at ha
    exact absurd ha (by simp)

/-! ## Empty and non-empty pages -/

theorem pageData_eq_nil_iff (view : List Product) (i k : Nat) (hk : 0 < k) :
    pageData view ((i : Int) + 1) (k : Int) = [] ↔ view.length ≤ i * k := by
  rw [pageData_succ, List.take_eq_nil_iff, List.drop_eq_nil_iff]
  constructor
  · rintro (h | h)
    · omega
    · exact h
  · intro h
    exact Or.inr h

theorem totalPages_le_iff (length i k : Nat) (hk : 0 < k) :
    totalPages length (k : Int) ≤ (i : Int) ↔ length ≤ i * k := by
  have hk' : (0 : Int) < (k : Int) := by exact_mod_cast hk
  obtain ⟨hlow, hhigh⟩ := totalPages_bounds length (k : Int) hk'
  constructor
  · intro h
    have h1 : totalPages length (k : Int) * (k : Int) ≤ (i : Int) * (k : Int) :=
      Int.mul_le_mul_of_nonneg_right h (le_of_lt hk')
    have h2 : (length : Int) ≤ ((i * k : Nat) : Int) := by
      push_cast
      omega
    exact_mod_cast h2
  · intro h
    by_contra hlt
    have h1 : (i : Int) ≤ totalPages length (k : Int) - 1 := by omega
    have h2 : (i : Int) * (k : Int) ≤ (totalPages length (k : Int) - 1) * (k : Int) :=
      Int.mul_le_mul_of_nonneg_right h1 (le_of_lt hk')
    have h3 : ((length : Nat) : Int) ≤ ((i * k : Nat) : Int) := by exact_mod_cast h
    push_cast at h3
    omega

/-- C19. For a positive page size, `ceil(|View| / pageSize)` (0 for the empty
view) is the number of non-empty pages: for a page `p ≥ 1` the slice is empty,
and "No products found" is rendered, if and only if `p` exceeds it, so every
page from 1 up to it has records. -/
theorem noProducts_iff_beyond_totalPages (s : State) (hsize : 0 < s.itemsPerPage)
    (hpage : 1 ≤ s.currentPage) :
    (rendersNoProducts s = true
        ↔ totalPages s.filteredProducts.length s.itemsPerPage < s.currentPage)
      ∧ (pageData s.filteredProducts s.currentPage s.itemsPerPage ≠ []
        ↔ s.currentPage ≤ totalPages s.filteredProducts.length s.itemsPerPage)
      ∧ (s.filteredProducts = [] → totalPages s.filteredProducts.length s.itemsPerPage = 0) := by
  obtain ⟨k, hk⟩ : ∃ k : Nat, s.itemsPerPage = (k : Int) := ⟨s.itemsPerPage.toNat, by omega⟩
  obtain ⟨i, hi⟩ : ∃ i : Nat, s.currentPage = (i : Int) + 1 :=
    ⟨(s.currentPage - 1).toNat, by omega⟩
  have hkpos : 0 < k := by omega
  have hnil : pageData s.filteredProducts s.currentPage s.itemsPerPage = []
      ↔ totalPages s.filteredProducts.length s.itemsPerPage < s.currentPage := by
    rw [hk, hi, pageData_eq_nil_iff _ _ _ hkpos, ← totalPages_le_iff _ _ _ hkpos]
    omega
  refine ⟨?_, ?_, ?_⟩
  · rw [rendersNoProducts, decide_eq_true_eq, List.length_eq_zero]
    exact hnil
  · rw [Ne, hnil]
    omega
  · intro hempty
    rw [hempty, List.length_nil, totalPages_zero _ hsize]

/-- C19 on twelve records with page size 5: page 3 has records and page 4
renders "No products found". -/
theorem noProducts_iff_beyond_totalPages_witness :
    0 < (changeItemsPerPage (initialState twelveProducts) 5).itemsPerPage
      ∧ 1 ≤ (changeItemsPerPage (initialState twelveProducts) 5).currentPage
      ∧ rendersNoProducts
          { changeItemsPerPage (initialState twelveProducts) 5 with currentPage := 3 } = false
      ∧ rendersNoProducts
          { changeItemsPerPage (initialState twelveProducts) 5 with currentPage := 4 } = true
      ∧ ((rendersNoProducts (changeItemsPerPage (initialState twelveProducts) 5) = true
          ↔ totalPages (changeItemsPerPage (initialState twelveProducts) 5).filteredProducts.length
              (changeItemsPerPage (initialState twelveProducts) 5).itemsPerPage
            < (changeItemsPerPage (initialState twelveProducts) 5).currentPage)
        ∧ (pageData (changeItemsPerPage (initialState twelveProducts) 5).filteredProducts
              (changeItemsPerPage (initialState twelveProducts) 5).currentPage
              (changeItemsPerPage (initialState twelveProducts) 5).itemsPerPage ≠ []
          ↔ (changeItemsPerPage (initialState twelveProducts) 5).currentPage
            ≤ totalPages
                (changeItemsPerPage (initialState twelveProducts) 5).filteredProducts.length
                (changeItemsPerPage (initialState twelveProducts) 5).itemsPerPage)
        ∧ ((changeItemsPerPage (initialState twelveProducts) 5).filteredProducts = [] →
            totalPages (changeItemsPerPage (initialState twelveProducts) 5).filteredProducts.length
              (changeItemsPerPage (initialState twelveProducts) 5).itemsPerPage = 0)) :=
  ⟨by decide, by decide, by decide, by decide,
    noProducts_iff_beyond_totalPages (changeItemsPerPage (initialState twelveProducts) 5)
      (by decide) (by decide)⟩

/-! ## The navigation window and the current page -/

/-- C20. For `totalPages ≥ 1` and `1 ≤ currentPage ≤ totalPages`, the
navigation window of `renderPagination` contains `currentPage`:
`startPage ≤ currentPage ≤ endPage` after the re-clamp, and `currentPage` is
among the page numbers offered. -/
theorem navWindow_contains_currentPage (currentPage total : Int) (hlow : 1 ≤ currentPage)
    (hhigh : currentPage ≤ total) :
    startPage currentPage total ≤ currentPage
      ∧ currentPage ≤ endPage currentPage total
      ∧ currentPage ∈ navWindow currentPage total := by
  have hstart : startPage currentPage total ≤ currentPage := by
    simp only [startPage]
    split <;> omega
  have hend : currentPage ≤ endPage currentPage total := by
    simp only [endPage]
    omega
  exact ⟨hstart, hend, (mem_pageLoop _ _ _).2 ⟨hstart, hend⟩⟩

/-- C20 on page 7 of 10: the window is `[5, 6, 7, 8, 9]`. -/
theorem navWindow_contains_currentPage_witness :
    (1 : Int) ≤ 7
      ∧ (7 : Int) ≤ 10
      ∧ navWindow 7 10 = [5, 6, 7, 8, 9]
      ∧ (startPage 7 10 ≤ 7 ∧ 7 ≤ endPage 7 10 ∧ 7 ∈ navWindow 7 10) :=
  ⟨by decide, by decide, by rw [navWindow, pageLoop_eq]; decide,
    navWindow_contains_currentPage 7 10 (by decide) (by decide)⟩

end ProductDashboard
